import Mathlib

/-!
Shallow embedding of the AdEx neuron simulator
(`src/simulate_adex.py` and `src/visualize_adex.py`).

Real-valued program quantities are modelled as rationals (`ℚ`).  The
transcendental `np.exp` only ever appears applied to a program expression and
none of the verified properties depend on its values, so the simulator is
parametrised over an arbitrary exponential function `e : ℚ → ℚ`; concrete
witnesses instantiate it with a concrete function.  NumPy's `np.round`
(round-half-to-even) is modelled exactly on `ℚ`.  Python exceptions are
modelled with `Except`: the `ValueError` raised for an input-current length
mismatch, the `ValueError` NumPy raises for a negative array dimension
(`np.full(n, v)` with `n < 0`), and the `IndexError` raised by `V[0] = EL`
when the arrays are empty.

Caveat: when `dt = 0` Python raises `ZeroDivisionError` at the very first
statement `T / dt`, before `n_steps` exists; in `ℚ` division by zero yields
0, so the model reaches the `n_steps = 0` index error instead.  Every
theorem about a successful run is unaffected: success forces `n_steps ≥ 1`
and hence `dt ≠ 0`.
-/

/-- `np.round` on an exact rational: round half to even, as NumPy does.
`int(...)` of the already-integral result is the identity. -/
def roundHalfEven (x : ℚ) : ℤ :=
  if x - ⌊x⌋ < 1/2 then ⌊x⌋
  else if 1/2 < x - ⌊x⌋ then ⌊x⌋ + 1
  else if ⌊x⌋ % 2 = 0 then ⌊x⌋ else ⌊x⌋ + 1

/-- The keyword parameters of `simulate_adex`, with the source's defaults. -/
structure AdexConfig where
  T : ℚ := 1000
  dt : ℚ := 1/10
  C : ℚ := 200
  gL : ℚ := 10
  EL : ℚ := -70
  VT : ℚ := -50
  DeltaT : ℚ := 2
  a : ℚ := 2
  tau_w : ℚ := 200
  b : ℚ := 60
  V_reset : ℚ := -58
  V_spike : ℚ := 0
  V0 : Option ℚ := none
  w0 : ℚ := 0
deriving DecidableEq

/-- `I_ext`: a scalar held constant, or a per-step sequence. -/
inductive InputCurrent where
  | scalar : ℚ → InputCurrent
  | array : List ℚ → InputCurrent
deriving DecidableEq

/-- The exceptions `simulate_adex` can raise. -/
inductive SimError where
  /-- the `ValueError` raised when the `I_ext` sequence length differs from
  `n_steps` -/
  | shapeMismatch
  /-- the `ValueError` NumPy raises for `np.full(n_steps, I_ext)` when
  `n_steps < 0` -/
  | negativeDimensions
  /-- the `IndexError` raised by `V[0] = EL` when `n_steps = 0` -/
  | indexError
deriving DecidableEq

/-- `n_steps = int(np.round(T / dt))` (an `ℤ`: it is negative when `T/dt` is). -/
def nStepsZ (cfg : AdexConfig) : ℤ :=
  roundHalfEven (cfg.T / cfg.dt)

/-- `V[0] = EL if V0 is None else float(V0)`. -/
def V0val (cfg : AdexConfig) : ℚ :=
  cfg.V0.getD cfg.EL

/-- One loop iteration of `simulate_adex`, acting on the live state
`(V[i], w[i])` with input `I[i]`, producing `(V[i+1], w[i+1])`:
the spike branch (`if V[i] >= V_spike`) or the Euler update. -/
def stepState (cfg : AdexConfig) (e : ℚ → ℚ) (Ii : ℚ) (s : ℚ × ℚ) : ℚ × ℚ :=
  if cfg.V_spike ≤ s.1 then
    (cfg.V_reset, s.2 + cfg.b)
  else
    let exponential_term := e ((s.1 - cfg.VT) / cfg.DeltaT)
    let dVdt := (-cfg.gL * (s.1 - cfg.EL)
                 + cfg.gL * cfg.DeltaT * exponential_term
                 - s.2 + Ii) / cfg.C
    let dwdt := (cfg.a * (s.1 - cfg.EL) - s.2) / cfg.tau_w
    (s.1 + cfg.dt * dVdt, s.2 + cfg.dt * dwdt)

/-- The state `(V[i], w[i])` as assigned by the loop (before any cosmetic
clamping of `V[i]` at a later iteration). -/
def stateAt (cfg : AdexConfig) (e : ℚ → ℚ) (I : List ℚ) : ℕ → ℚ × ℚ
  | 0 => (V0val cfg, cfg.w0)
  | i + 1 => stepState cfg e (I.getD i 0) (stateAt cfg e I i)

/-- The value left in the returned `V` array at index `i` of an `n`-sample
run: iteration `i` runs only for `i < n - 1`, and when it takes the spike
branch it overwrites `V[i]` with `V_spike` (the cosmetic clamp). -/
def storedV (cfg : AdexConfig) (e : ℚ → ℚ) (I : List ℚ) (n i : ℕ) : ℚ :=
  if i + 1 < n ∧ cfg.V_spike ≤ (stateAt cfg e I i).1 then cfg.V_spike
  else (stateAt cfg e I i).1

/-- Indices `i` of the loop range at which the spike branch fires (the
appended spike time is `t[i] = i*dt`). -/
def spikeIdx (cfg : AdexConfig) (e : ℚ → ℚ) (I : List ℚ) (n : ℕ) : List ℕ :=
  (List.range (n - 1)).filter fun i =>
    decide (cfg.V_spike ≤ (stateAt cfg e I i).1)

/-- The tuple `(t, V, w, spike_times)` returned by a successful run of
`n` samples with resolved per-step input `I`. -/
def adexTrace (cfg : AdexConfig) (e : ℚ → ℚ) (I : List ℚ) (n : ℕ) :
    List ℚ × List ℚ × List ℚ × List ℚ :=
  (List.map (fun i : ℕ => (i : ℚ) * cfg.dt) (List.range n),
   List.map (storedV cfg e I n) (List.range n),
   List.map (fun i : ℕ => (stateAt cfg e I i).2) (List.range n),
   List.map (fun i : ℕ => (i : ℚ) * cfg.dt) (spikeIdx cfg e I n))

/-- The per-step input list the loop reads: `np.full(n_steps, I_ext)` for a
scalar, the sequence itself otherwise. -/
def resolvedInput (cfg : AdexConfig) (Iext : InputCurrent) : List ℚ :=
  match Iext with
  | .scalar v => List.replicate (nStepsZ cfg).toNat v
  | .array vs => vs

/-- `simulate_adex` (src/simulate_adex.py).  The loop-carried mutation is
rendered as the recurrence `stateAt`; the returned arrays are `adexTrace`.
Error order follows the source: for a sequence input the length check runs
first (`I.shape[0] != n_steps` raises `ValueError`); for a scalar input
`np.full` faults when `n_steps < 0`; then `V[0] = ...` faults when the
arrays are empty (`n_steps = 0`). -/
def simulate_adex (cfg : AdexConfig) (e : ℚ → ℚ) (Iext : InputCurrent) :
    Except SimError (List ℚ × List ℚ × List ℚ × List ℚ) :=
  let nz := nStepsZ cfg
  match Iext with
  | .scalar v =>
    if nz < 0 then .error .negativeDimensions
    else if nz = 0 then .error .indexError
    else .ok (adexTrace cfg e (List.replicate nz.toNat v) nz.toNat)
  | .array vs =>
    if (vs.length : ℤ) ≠ nz then .error .shapeMismatch
    else if nz = 0 then .error .indexError
    else .ok (adexTrace cfg e vs nz.toNat)

/-- `compute_firing_rate` (src/visualize_adex.py): empty spike list returns
0.0 immediately; the window mask is inclusive on both ends; a non-positive
window returns 0.0 (checked after the mask, before the division). -/
def compute_firing_rate (spike_times_ms : List ℚ) (T_ms : ℚ)
    (steady_window_ms : ℚ := 500) : ℚ :=
  if spike_times_ms.length = 0 then 0
  else
    let window_start := T_ms - steady_window_ms
    let n_spikes_window :=
      (spike_times_ms.filter fun s =>
        decide (window_start ≤ s ∧ s ≤ T_ms)).length
    if steady_window_ms ≤ 0 then 0
    else (n_spikes_window : ℚ) / (steady_window_ms / 1000)

/-! ## Concrete instantiations used by witnesses and counterexamples -/

/-- A concrete stand-in for `np.exp` in closed runs (the verified properties
do not depend on the exponential's values). -/
def eOne : ℚ → ℚ := fun _ => 1

/-- A config whose run spikes at step 0: `V0 = 5 ≥ V_spike = 0`, three
samples (`T = 3`, `dt = 1`). -/
def cfgSpike : AdexConfig := { T := 3, dt := 1, V0 := some 5 }

/-- A config with non-positive `DeltaT` and `tau_w` (and `n_steps = 2`). -/
def cfgC3 : AdexConfig := { T := 2, dt := 1, DeltaT := -1, tau_w := -1 }

/-- A config with `n_steps = round(1/100) = 0`. -/
def cfgC5 : AdexConfig := { T := 1, dt := 100 }

/-- A two-sample config. -/
def cfgArr : AdexConfig := { T := 2, dt := 1 }

/-- A non-adapting config (`a = 0`, `b = 0`) with a nonzero initial
adaptation `w0 = 1`. -/
def cfgC6 : AdexConfig := { T := 2, dt := 1, a := 0, b := 0, w0 := 1, tau_w := 1 }

/-- A non-adapting config (`a = 0`, `b = 0`) with the default `w0 = 0`. -/
def cfgC6z : AdexConfig := { T := 2, dt := 1, a := 0, b := 0, tau_w := 1 }

/-- A config whose initial state spikes (`V0 = 1 ≥ V_spike = 0`), one step. -/
def cfgC10 : AdexConfig := { T := 2, dt := 1, V0 := some 1 }

/-! ## Helper lemmas -/

lemma getD_map_range (f : ℕ → ℚ) {n i : ℕ} (h : i < n) :
    ((List.range n).map f).getD i 0 = f i := by
  simp [List.getD_eq_getElem?_getD, List.getElem?_map, List.getElem?_range h]

lemma stateAt_succ (cfg : AdexConfig) (e : ℚ → ℚ) (I : List ℚ) (i : ℕ) :
    stateAt cfg e I (i + 1) = stepState cfg e (I.getD i 0) (stateAt cfg e I i) :=
  rfl

/-- Inversion of a successful run: `n_steps ≥ 1` and the result is the trace
of the resolved input. -/
lemma simulate_ok {cfg : AdexConfig} {e : ℚ → ℚ} {Iext : InputCurrent}
    {r : List ℚ × List ℚ × List ℚ × List ℚ}
    (h : simulate_adex cfg e Iext = .ok r) :
    1 ≤ nStepsZ cfg ∧
      r = adexTrace cfg e (resolvedInput cfg Iext) (nStepsZ cfg).toNat := by
  cases Iext with
  | scalar v =>
    simp only [simulate_adex] at h
    split_ifs at h with h1 h2 <;>
      first
        | exact Except.noConfusion h
        | (push_neg at h1
           simp only [Except.ok.injEq] at h
           exact ⟨by omega, h.symm⟩)
  | array vs =>
    simp only [simulate_adex] at h
    split_ifs at h with h1 h2 <;>
      first
        | exact Except.noConfusion h
        | (push_neg at h1
           simp only [Except.ok.injEq] at h
           exact ⟨by omega, h.symm⟩)

/-- `np.round` never rounds up by more than a half. -/
lemma roundHalfEven_le (x : ℚ) : (roundHalfEven x : ℚ) ≤ x + 1/2 := by
  have hfl : (⌊x⌋ : ℚ) ≤ x := Int.floor_le x
  unfold roundHalfEven
  split_ifs with h1 h2 h3
  · linarith
  · push_cast
    linarith [h2]
  · linarith
  · push_cast
    have : x - (⌊x⌋ : ℚ) = 1/2 := le_antisymm (not_lt.1 h2) (not_lt.1 h1)
    linarith

lemma trace_components {cfg : AdexConfig} {e : ℚ → ℚ} {Iext : InputCurrent}
    {t V w sp : List ℚ}
    (h : simulate_adex cfg e Iext = .ok (t, V, w, sp)) :
    t = List.map (fun i : ℕ => (i : ℚ) * cfg.dt)
          (List.range (nStepsZ cfg).toNat) ∧
    V = List.map (storedV cfg e (resolvedInput cfg Iext) (nStepsZ cfg).toNat)
          (List.range (nStepsZ cfg).toNat) ∧
    w = List.map (fun i : ℕ => (stateAt cfg e (resolvedInput cfg Iext) i).2)
          (List.range (nStepsZ cfg).toNat) ∧
    sp = List.map (fun i : ℕ => (i : ℚ) * cfg.dt)
          (spikeIdx cfg e (resolvedInput cfg Iext) (nStepsZ cfg).toNat) := by
  obtain ⟨-, htr⟩ := simulate_ok h
  simpa [adexTrace, Prod.ext_iff] using htr

/-- A spiking loop index contributes its sample time to the spike list. -/
lemma spike_mem_of {cfg : AdexConfig} {e : ℚ → ℚ} {I : List ℚ} {n i : ℕ}
    (hi : i < n - 1) (hs : cfg.V_spike ≤ (stateAt cfg e I i).1) :
    ((i : ℚ) * cfg.dt) ∈
      List.map (fun j : ℕ => (j : ℚ) * cfg.dt) (spikeIdx cfg e I n) :=
  List.mem_map.2 ⟨i,
    List.mem_filter.2 ⟨List.mem_range.2 hi, decide_eq_true hs⟩, rfl⟩

/-- Every spike time comes from a spiking loop index. -/
lemma of_spike_mem {cfg : AdexConfig} {e : ℚ → ℚ} {I : List ℚ} {n : ℕ} {x : ℚ}
    (hx : x ∈ List.map (fun j : ℕ => (j : ℚ) * cfg.dt) (spikeIdx cfg e I n)) :
    ∃ i : ℕ, i < n - 1 ∧ cfg.V_spike ≤ (stateAt cfg e I i).1 ∧
      x = (i : ℚ) * cfg.dt := by
  obtain ⟨i, hi, rfl⟩ := List.mem_map.1 hx
  have hf := List.mem_filter.1 hi
  exact ⟨i, List.mem_range.1 hf.1, of_decide_eq_true hf.2, rfl⟩

/-- C1: on every successful run the loop performs all `n_steps - 1`
iterations (the returned arrays have the full `n_steps` samples, never a
truncated prefix), and each iteration `i` takes exactly one of the two
branches: if `V[i] >= V_spike` it clamps the stored sample to `V_spike`,
assigns `V[i+1] = V_reset` and `w[i+1] = w[i] + b`, and appends `t[i] =
i*dt` to the spike list; otherwise the stored sample is the unclamped
`V[i]` and it assigns the explicit-Euler update
`V[i+1] = V[i] + dt*((-gL*(V[i]-EL) + gL*DeltaT*exp((V[i]-VT)/DeltaT)
- w[i] + I[i])/C)`, `w[i+1] = w[i] + dt*((a*(V[i]-EL) - w[i])/tau_w)`. -/
theorem adex_step_two_branches (cfg : AdexConfig) (e : ℚ → ℚ)
    (Iext : InputCurrent) (t V w sp : List ℚ)
    (h : simulate_adex cfg e Iext = .ok (t, V, w, sp)) :
    (V.length : ℤ) = nStepsZ cfg ∧
    ∀ i : ℕ, i + 1 < V.length →
      ((cfg.V_spike ≤ (stateAt cfg e (resolvedInput cfg Iext) i).1 →
          V.getD i 0 = cfg.V_spike ∧
          stateAt cfg e (resolvedInput cfg Iext) (i + 1) =
            (cfg.V_reset, (stateAt cfg e (resolvedInput cfg Iext) i).2 + cfg.b) ∧
          w.getD (i + 1) 0 = w.getD i 0 + cfg.b ∧
          ((i : ℚ) * cfg.dt) ∈ sp) ∧
       (¬ cfg.V_spike ≤ (stateAt cfg e (resolvedInput cfg Iext) i).1 →
          V.getD i 0 = (stateAt cfg e (resolvedInput cfg Iext) i).1 ∧
          stateAt cfg e (resolvedInput cfg Iext) (i + 1) =
            ((stateAt cfg e (resolvedInput cfg Iext) i).1 + cfg.dt *
              ((-cfg.gL * ((stateAt cfg e (resolvedInput cfg Iext) i).1 - cfg.EL)
                + cfg.gL * cfg.DeltaT *
                  e (((stateAt cfg e (resolvedInput cfg Iext) i).1 - cfg.VT)
                      / cfg.DeltaT)
                - (stateAt cfg e (resolvedInput cfg Iext) i).2
                + (resolvedInput cfg Iext).getD i 0) / cfg.C),
             (stateAt cfg e (resolvedInput cfg Iext) i).2 + cfg.dt *
              ((cfg.a * ((stateAt cfg e (resolvedInput cfg Iext) i).1 - cfg.EL)
                - (stateAt cfg e (resolvedInput cfg Iext) i).2)
                / cfg.tau_w)))) := by
  obtain ⟨hn, -⟩ := simulate_ok h
  obtain ⟨ht, hV, hw, hsp⟩ := trace_components h
  subst ht hV hw hsp
  refine ⟨?_, ?_⟩
  · simp only [List.length_map, List.length_range]
    omega
  intro i hi
  simp only [List.length_map, List.length_range] at hi
  constructor
  · intro hcond
    refine ⟨?_, ?_, ?_, ?_⟩
    · rw [getD_map_range _ (by omega)]
      unfold storedV
      rw [if_pos ⟨hi, hcond⟩]
    · rw [stateAt_succ]
      unfold stepState
      rw [if_pos hcond]
    · rw [getD_map_range _ (by omega : i + 1 < (nStepsZ cfg).toNat),
        getD_map_range _ (by omega : i < (nStepsZ cfg).toNat), stateAt_succ]
      unfold stepState
      rw [if_pos hcond]
    · exact spike_mem_of (by omega) hcond
  · intro hcond
    refine ⟨?_, ?_⟩
    · rw [getD_map_range _ (by omega)]
      unfold storedV
      rw [if_neg (by tauto)]
    · rw [stateAt_succ]
      unfold stepState
      rw [if_neg hcond]

theorem adex_step_two_branches_witness :
    ((0 : ℕ) : ℚ) * cfgSpike.dt ∈
      (adexTrace cfgSpike eOne (List.replicate 3 200) 3).2.2.2 := by
  have h3 : nStepsZ cfgSpike = 3 := by
    norm_num [nStepsZ, roundHalfEven, cfgSpike]
  have hok : simulate_adex cfgSpike eOne (.scalar 200) =
      .ok (adexTrace cfgSpike eOne (List.replicate 3 200) 3) := by
    norm_num [simulate_adex, h3]
    rfl
  have hcond : cfgSpike.V_spike ≤
      (stateAt cfgSpike eOne (resolvedInput cfgSpike (.scalar 200)) 0).1 := by
    norm_num [stateAt, V0val, cfgSpike]
  exact ((adex_step_two_branches cfgSpike eOne (.scalar 200)
      (adexTrace cfgSpike eOne (List.replicate 3 200) 3).1
      (adexTrace cfgSpike eOne (List.replicate 3 200) 3).2.1
      (adexTrace cfgSpike eOne (List.replicate 3 200) 3).2.2.1
      (adexTrace cfgSpike eOne (List.replicate 3 200) 3).2.2.2
      hok).2 0 (by norm_num [adexTrace]) |>.1 hcond).2.2.2

/-- C7: every successful run returns `t`, `V`, `w` of length `n_steps` with
`t[i] = i*dt`, and a strictly increasing spike-time list whose elements are
multiples of `dt` strictly less than `T`. -/
theorem trace_shape_invariants (cfg : AdexConfig) (e : ℚ → ℚ)
    (Iext : InputCurrent) (t V w sp : List ℚ)
    (h : simulate_adex cfg e Iext = .ok (t, V, w, sp)) (hdt : 0 < cfg.dt) :
    ((t.length : ℤ) = nStepsZ cfg ∧ V.length = t.length ∧
      w.length = t.length) ∧
    (∀ i : ℕ, i < t.length → t.getD i 0 = (i : ℚ) * cfg.dt) ∧
    sp.Pairwise (· < ·) ∧
    ∀ s ∈ sp, (∃ i : ℕ, s = (i : ℚ) * cfg.dt) ∧ s < cfg.T := by
  obtain ⟨hn, -⟩ := simulate_ok h
  obtain ⟨ht, hV, hw, hsp⟩ := trace_components h
  subst ht hV hw hsp
  refine ⟨⟨?_, by simp, by simp⟩, ?_, ?_, ?_⟩
  · simp only [List.length_map, List.length_range]
    omega
  · intro i hi
    simp only [List.length_map, List.length_range] at hi
    exact getD_map_range _ hi
  · refine (List.pairwise_map).2 (((List.pairwise_lt_range _).filter _).imp ?_)
    intro a b hab
    exact mul_lt_mul_of_pos_right (by exact_mod_cast hab) hdt
  · intro s hs
    obtain ⟨i, hi, -, rfl⟩ := of_spike_mem hs
    refine ⟨⟨i, rfl⟩, ?_⟩
    have hzz : (((nStepsZ cfg).toNat : ℤ)) = nStepsZ cfg :=
      Int.toNat_of_nonneg (by omega)
    have hcast : (((nStepsZ cfg).toNat : ℚ)) = ((nStepsZ cfg : ℚ)) := by
      exact_mod_cast hzz
    have hle : ((nStepsZ cfg : ℚ)) ≤ cfg.T / cfg.dt + 1/2 :=
      roundHalfEven_le _
    have hiq : ((i : ℚ)) + 2 ≤ (((nStepsZ cfg).toNat : ℚ)) := by
      exact_mod_cast (by omega : i + 2 ≤ (nStepsZ cfg).toNat)
    have hstep : (i : ℚ) * cfg.dt ≤ (cfg.T / cfg.dt - 3/2) * cfg.dt := by
      apply mul_le_mul_of_nonneg_right _ (le_of_lt hdt)
      linarith
    calc (i : ℚ) * cfg.dt ≤ (cfg.T / cfg.dt - 3/2) * cfg.dt := hstep
      _ = cfg.T - 3/2 * cfg.dt := by
          rw [sub_mul, div_mul_cancel₀ _ (ne_of_gt hdt)]
      _ < cfg.T := by linarith

theorem trace_shape_invariants_witness :
    (((adexTrace cfgSpike eOne (List.replicate 3 200) 3).1.length : ℤ) =
        nStepsZ cfgSpike ∧
      (adexTrace cfgSpike eOne (List.replicate 3 200) 3).2.1.length =
        (adexTrace cfgSpike eOne (List.replicate 3 200) 3).1.length ∧
      (adexTrace cfgSpike eOne (List.replicate 3 200) 3).2.2.1.length =
        (adexTrace cfgSpike eOne (List.replicate 3 200) 3).1.length) ∧
    (∀ i : ℕ, i < (adexTrace cfgSpike eOne (List.replicate 3 200) 3).1.length →
      (adexTrace cfgSpike eOne (List.replicate 3 200) 3).1.getD i 0 =
        (i : ℚ) * cfgSpike.dt) ∧
    (adexTrace cfgSpike eOne (List.replicate 3 200) 3).2.2.2.Pairwise (· < ·) ∧
    ∀ s ∈ (adexTrace cfgSpike eOne (List.replicate 3 200) 3).2.2.2,
      (∃ i : ℕ, s = (i : ℚ) * cfgSpike.dt) ∧ s < cfgSpike.T := by
  have h3 : nStepsZ cfgSpike = 3 := by
    norm_num [nStepsZ, roundHalfEven, cfgSpike]
  have hok : simulate_adex cfgSpike eOne (.scalar 200) =
      .ok (adexTrace cfgSpike eOne (List.replicate 3 200) 3) := by
    norm_num [simulate_adex, h3]
    rfl
  exact trace_shape_invariants cfgSpike eOne (.scalar 200)
    (adexTrace cfgSpike eOne (List.replicate 3 200) 3).1
    (adexTrace cfgSpike eOne (List.replicate 3 200) 3).2.1
    (adexTrace cfgSpike eOne (List.replicate 3 200) 3).2.2.1
    (adexTrace cfgSpike eOne (List.replicate 3 200) 3).2.2.2
    hok (by norm_num [cfgSpike])

/-- C9: the spike check runs only at loop indices `0 .. n_steps-2`; the last
sample is stored unclamped (whatever its value, even `≥ V_spike`), and every
recorded spike time is `i*dt` for some `i ≤ n_steps - 2`, hence at most
`(n_steps-2)*dt` when `dt ≥ 0`. -/
theorem spike_check_excludes_last (cfg : AdexConfig) (e : ℚ → ℚ)
    (Iext : InputCurrent) (t V w sp : List ℚ)
    (h : simulate_adex cfg e Iext = .ok (t, V, w, sp)) :
    V.getD (V.length - 1) 0 =
      (stateAt cfg e (resolvedInput cfg Iext) (V.length - 1)).1 ∧
    ∀ s ∈ sp, ∃ i : ℕ, i + 2 ≤ V.length ∧ s = (i : ℚ) * cfg.dt ∧
      (0 ≤ cfg.dt → s ≤ ((V.length : ℚ) - 2) * cfg.dt) := by
  obtain ⟨hn, -⟩ := simulate_ok h
  obtain ⟨ht, hV, hw, hsp⟩ := trace_components h
  subst ht hV hw hsp
  constructor
  · simp only [List.length_map, List.length_range]
    rw [getD_map_range _ (by omega)]
    unfold storedV
    rw [if_neg (by rintro ⟨hlt, -⟩; omega)]
  · intro s hs
    obtain ⟨i, hi, -, rfl⟩ := of_spike_mem hs
    simp only [List.length_map, List.length_range]
    refine ⟨i, by omega, rfl, ?_⟩
    intro hdt
    have hiq : ((i : ℚ)) ≤ (((nStepsZ cfg).toNat : ℚ)) - 2 := by
      have : (i + 2 : ℚ) ≤ (((nStepsZ cfg).toNat : ℚ)) := by
        exact_mod_cast (by omega : i + 2 ≤ (nStepsZ cfg).toNat)
      linarith
    exact mul_le_mul_of_nonneg_right hiq hdt

theorem spike_check_excludes_last_witness :
    (adexTrace cfgSpike eOne (List.replicate 3 200) 3).2.1.getD
        ((adexTrace cfgSpike eOne (List.replicate 3 200) 3).2.1.length - 1) 0 =
      (stateAt cfgSpike eOne (resolvedInput cfgSpike (.scalar 200))
        ((adexTrace cfgSpike eOne (List.replicate 3 200) 3).2.1.length - 1)).1 := by
  have h3 : nStepsZ cfgSpike = 3 := by
    norm_num [nStepsZ, roundHalfEven, cfgSpike]
  have hok : simulate_adex cfgSpike eOne (.scalar 200) =
      .ok (adexTrace cfgSpike eOne (List.replicate 3 200) 3) := by
    norm_num [simulate_adex, h3]
    rfl
  exact (spike_check_excludes_last cfgSpike eOne (.scalar 200)
    (adexTrace cfgSpike eOne (List.replicate 3 200) 3).1
    (adexTrace cfgSpike eOne (List.replicate 3 200) 3).2.1
    (adexTrace cfgSpike eOne (List.replicate 3 200) 3).2.2.1
    (adexTrace cfgSpike eOne (List.replicate 3 200) 3).2.2.2
    hok).1

/-- C6 (amended): with `a = 0`, `b = 0` and `w0 = 0`, the adaptation trace
is identically zero: it stays at its initial value through both Euler steps
and spike events. -/
theorem no_adaptation_zero_w0 (cfg : AdexConfig) (e : ℚ → ℚ)
    (Iext : InputCurrent) (t V w sp : List ℚ)
    (ha : cfg.a = 0) (hb : cfg.b = 0) (hw0 : cfg.w0 = 0)
    (h : simulate_adex cfg e Iext = .ok (t, V, w, sp)) :
    ∀ i : ℕ, i < w.length → w.getD i 0 = 0 := by
  obtain ⟨-, -, hw, -⟩ := trace_components h
  subst hw
  have hstate : ∀ i : ℕ, (stateAt cfg e (resolvedInput cfg Iext) i).2 = 0 := by
    intro i
    induction i with
    | zero => simpa [stateAt] using hw0
    | succ k ih =>
      rw [stateAt_succ]
      simp only [stepState]
      split_ifs with hc
      · simp [hb, ih]
      · simp [ha, ih]
  intro i hi
  simp only [List.length_map, List.length_range] at hi
  rw [getD_map_range _ hi, hstate]

theorem no_adaptation_zero_w0_witness :
    (adexTrace cfgC6z eOne (List.replicate 2 200) 2).2.2.1.getD 1 0 = 0 := by
  have h2 : nStepsZ cfgC6z = 2 := by
    norm_num [nStepsZ, roundHalfEven, cfgC6z]
  have hok : simulate_adex cfgC6z eOne (.scalar 200) =
      .ok (adexTrace cfgC6z eOne (List.replicate 2 200) 2) := by
    norm_num [simulate_adex, h2]
    rfl
  exact no_adaptation_zero_w0 cfgC6z eOne (.scalar 200) _ _ _ _
    rfl rfl rfl hok 1 (by norm_num [adexTrace])

/-- C6 fails as stated: with `a = 0`, `b = 0` but `w0 = 1`, the run records
no spike at all, yet `w[1] = 0 ≠ w0`: the Euler update decays `w` by
`dt*w/tau_w` even when `a = 0`. -/
theorem no_adaptation_cex :
    cfgC6.a = 0 ∧ cfgC6.b = 0 ∧ cfgC6.w0 = 1 ∧
    (simulate_adex cfgC6 eOne (.scalar 200)).toOption.map
        (fun r => r.2.2.2) = some [] ∧
    (simulate_adex cfgC6 eOne (.scalar 200)).toOption.map
        (fun r => r.2.2.1.getD 1 0) = some 0 ∧
    (0 : ℚ) ≠ cfgC6.w0 := by
  have h2 : nStepsZ cfgC6 = 2 := by
    norm_num [nStepsZ, roundHalfEven, cfgC6]
  have hok : simulate_adex cfgC6 eOne (.scalar 200) =
      .ok (adexTrace cfgC6 eOne [200, 200] 2) := by
    norm_num [simulate_adex, h2]
    rfl
  have hs0 : stateAt cfgC6 eOne [200, 200] 0 = (-70, 1) := by
    norm_num [stateAt, V0val, cfgC6]
  have hcond0 : ¬ (cfgC6.V_spike ≤ (stateAt cfgC6 eOne [200, 200] 0).1) := by
    rw [hs0]
    norm_num [cfgC6]
  have hs1snd : (stateAt cfgC6 eOne [200, 200] 1).2 = 0 := by
    rw [show (1 : ℕ) = 0 + 1 from rfl, stateAt_succ, hs0]
    norm_num [stepState, cfgC6]
  have hsp2 : (adexTrace cfgC6 eOne [200, 200] 2).2.2.2 = [] := by
    simp [adexTrace, spikeIdx, List.range_succ, List.filter_cons, hcond0]
  have hw1 : (adexTrace cfgC6 eOne [200, 200] 2).2.2.1.getD 1 0 = 0 := by
    simp only [adexTrace]
    rw [getD_map_range _ (by norm_num)]
    exact hs1snd
  refine ⟨rfl, rfl, rfl, ?_, ?_, by norm_num [cfgC6]⟩
  · rw [hok]
    exact congrArg some hsp2
  · rw [hok]
    exact congrArg some hw1

/-- C3 fails as stated: a call with `DeltaT = -1 ≤ 0` and `tau_w = -1 ≤ 0`
returns a normal result instead of raising any error. -/
theorem no_invalid_parameter_error_cex :
    cfgC3.DeltaT ≤ 0 ∧ cfgC3.tau_w ≤ 0 ∧
    (simulate_adex cfgC3 eOne (.scalar 200)).isOk = true := by
  have h2 : nStepsZ cfgC3 = 2 := by
    norm_num [nStepsZ, roundHalfEven, cfgC3]
  refine ⟨by norm_num [cfgC3], by norm_num [cfgC3], ?_⟩
  simp only [simulate_adex, h2]
  rfl

/-- C3 (amended): the integrator validates no parameters and no
`InvalidParameterError` exists.  Every scalar-input call with
`n_steps = round(T/dt) ≥ 1` returns normally, whatever the signs of `DeltaT`
and `tau_w`.  Non-positive `dt` or `T` never raise an
`InvalidParameterError` either: in the source, when such a call fails it
fails with a different exception (`ZeroDivisionError` at `T / dt` when
`dt = 0`, a NumPy negative-dimension `ValueError` when `n_steps < 0`, an
`IndexError` at `V[0]` when `n_steps = 0`). -/
theorem no_parameter_validation (cfg : AdexConfig) (e : ℚ → ℚ) (v : ℚ)
    (h : 1 ≤ nStepsZ cfg) :
    (simulate_adex cfg e (.scalar v)).isOk = true := by
  simp only [simulate_adex]
  rw [if_neg (by omega), if_neg (by omega)]
  rfl

theorem no_parameter_validation_witness :
    (simulate_adex cfgC3 eOne (.scalar 200)).isOk = true :=
  no_parameter_validation cfgC3 eOne 200
    (by norm_num [nStepsZ, roundHalfEven, cfgC3])

/-- C5 fails only in the degenerate `n_steps = 0` case: the empty input
sequence has length equal to `n_steps = round(1/100) = 0`, yet the call
fails (with an index error), instead of succeeding. -/
theorem shape_contract_cex :
    ((([] : List ℚ)).length : ℤ) = nStepsZ cfgC5 ∧
    simulate_adex cfgC5 eOne (.array []) = .error .indexError := by
  have h0 : nStepsZ cfgC5 = 0 := by
    norm_num [nStepsZ, roundHalfEven, cfgC5]
  refine ⟨by simp [h0], ?_⟩
  simp only [simulate_adex, h0]
  rfl

/-- C5 (amended): a sequence input raises the shape-mismatch `ValueError`
exactly when its length differs from `n_steps = round(T/dt)`; in particular
length `n_steps - 1` always raises it, and length `n_steps` succeeds
provided `n_steps ≥ 1` (when `n_steps = 0` the matching empty sequence fails
with an index error instead). -/
theorem shape_contract (cfg : AdexConfig) (e : ℚ → ℚ) (vs : List ℚ) :
    (simulate_adex cfg e (.array vs) = .error .shapeMismatch ↔
      (vs.length : ℤ) ≠ nStepsZ cfg) ∧
    ((vs.length : ℤ) = nStepsZ cfg - 1 →
      simulate_adex cfg e (.array vs) = .error .shapeMismatch) ∧
    ((vs.length : ℤ) = nStepsZ cfg → 1 ≤ nStepsZ cfg →
      (simulate_adex cfg e (.array vs)).isOk = true) := by
  refine ⟨⟨?_, ?_⟩, ?_, ?_⟩
  · intro h heq
    simp only [simulate_adex] at h
    rw [if_neg (fun hc => hc heq)] at h
    split_ifs at h <;> simp at h
  · intro hne
    simp only [simulate_adex]
    rw [if_pos hne]
  · intro hlen
    have hne : (vs.length : ℤ) ≠ nStepsZ cfg := by omega
    simp only [simulate_adex]
    rw [if_pos hne]
  · intro heq hge
    simp only [simulate_adex]
    rw [if_neg (by omega), if_neg (by omega)]
    rfl

theorem shape_contract_witness :
    (simulate_adex cfgArr eOne (.array [200, 200])).isOk = true :=
  (shape_contract cfgArr eOne [200, 200]).2.2
    (by norm_num [nStepsZ, roundHalfEven, cfgArr])
    (by norm_num [nStepsZ, roundHalfEven, cfgArr])

/-- C2 fails on the window = 100 half: the trailing window is the inclusive
interval `[T - window, T] = [400, 500]`, so the spike at 400 counts as well
as the one at 490, giving 2/(100/1000) = 20 Hz, not 10 Hz. -/
theorem firing_rate_example_cex :
    compute_firing_rate [100, 200, 300, 400, 490] 500 100 = 20 ∧
      (20 : ℚ) ≠ 10 := by
  constructor
  · norm_num [compute_firing_rate, List.filter_cons]
  · norm_num

/-- C2 (amended): with window = 500 the estimator returns 10 Hz
(all five spikes in [0, 500]); with window = 100 both the spikes at 400 and
490 lie in the inclusive trailing window [400, 500], so it returns 20 Hz. -/
theorem firing_rate_example_amended :
    compute_firing_rate [100, 200, 300, 400, 490] 500 500 = 10 ∧
      compute_firing_rate [100, 200, 300, 400, 490] 500 100 = 20 := by
  constructor <;> norm_num [compute_firing_rate, List.filter_cons]

/-- C4: the rate estimator returns 0 for an empty spike list and for a
non-positive window; otherwise it returns the inclusive-window spike count
divided by `window/1000`, and the result is never negative. -/
theorem firing_rate_spec (sp : List ℚ) (T window : ℚ) :
    (sp = [] → compute_firing_rate sp T window = 0) ∧
    (window ≤ 0 → compute_firing_rate sp T window = 0) ∧
    (0 < window → sp ≠ [] →
      compute_firing_rate sp T window =
        ((sp.filter fun s => decide (T - window ≤ s ∧ s ≤ T)).length : ℚ) /
          (window / 1000)) ∧
    0 ≤ compute_firing_rate sp T window := by
  refine ⟨?_, ?_, ?_, ?_⟩
  · intro h
    subst h
    simp [compute_firing_rate]
  · intro h
    simp only [compute_firing_rate]
    split_ifs with h1
    · rfl
    · rfl
  · intro hw hne
    simp only [compute_firing_rate]
    rw [if_neg (by simpa [List.length_eq_zero] using hne),
      if_neg (by linarith)]
  · simp only [compute_firing_rate]
    split_ifs with h1 h2
    · exact le_refl 0
    · exact le_refl 0
    · exact div_nonneg (Nat.cast_nonneg _) (by linarith [not_le.1 h2])

theorem firing_rate_spec_witness :
    compute_firing_rate ([] : List ℚ) 500 100 = 0 :=
  (firing_rate_spec [] 500 100).1 rfl

/-- C10: on a spike step the input current is never read: if two runs
reach step `i` in the same state and that state satisfies the spike
condition, the assigned `(V[i+1], w[i+1])` is identical even when the two
input-current sequences differ at index `i` (and anywhere else). -/
theorem spike_branch_ignores_input (cfg : AdexConfig) (e : ℚ → ℚ)
    (I1 I2 : List ℚ) (i : ℕ)
    (hstate : stateAt cfg e I1 i = stateAt cfg e I2 i)
    (hspike : cfg.V_spike ≤ (stateAt cfg e I1 i).1) :
    stateAt cfg e I1 (i + 1) = stateAt cfg e I2 (i + 1) := by
  rw [stateAt_succ, stateAt_succ, ← hstate]
  unfold stepState
  rw [if_pos hspike, if_pos hspike]

theorem spike_branch_ignores_input_witness :
    stateAt cfgC10 eOne [5] 1 = stateAt cfgC10 eOne [7] 1 :=
  spike_branch_ignores_input cfgC10 eOne [5] [7] 0 rfl
    (by norm_num [stateAt, V0val, cfgC10])
